import Mathlib

/-!
# Verification of the SPDY framing and header-compression core

Shallow embedding of `compression.go` (the stateful header `Compressor` /
`Decompressor`) and `spdy2/frames/noop.go` (the SPDY/2 NOOP frame codec),
with theorems settling the specification's claims about them.

Byte strings are modelled as `List Nat` (each element a byte value).
The Go `zlib`/DEFLATE layer is from the standard library, outside this
repository; following the specification (§4.2, SYNC_FLUSH) it is modelled
as a lossless block-aligned codec: each `Compress` call's output inflates
to exactly the bytes written, in order.  Reads from the inflated stream
are modelled as exact reads (the spec's `read_exactly` model): a read of
`n` bytes either yields `n` bytes or fails.
-/

namespace Spdy

/-- A byte string. -/
abbrev Bytes := List Nat

/-- `MAX_FRAME_SIZE`.  Modelled from the spec: §6 Constants, the 24-bit
frame-length field gives `MAX_FRAME_SIZE = 2^24 − 1`; the constant itself
is declared outside `src/`. -/
def MAX_FRAME_SIZE : Nat := 2 ^ 24 - 1

/-- Big-endian value of a byte string.  Modelled from the spec: §4.1's
`u16_be` / `u24_be` / `u32_be` decoders (`bytesToUint16`,
`bytesToUint32`, `common.BytesToUint24` are declared outside `src/`). -/
def beVal (bs : Bytes) : Nat := bs.foldl (fun a b => a * 256 + b) 0

/-- Big-endian encoding of `n` into `w` bytes (the spec's §4.1 encoders). -/
def beBytes (w n : Nat) : Bytes :=
  match w with
  | 0 => []
  | w + 1 => beBytes w (n / 256) ++ [n % 256]

/-- Exact read of `n` bytes from a stream: the `n` bytes and the rest, or
`none` when the stream is too short (a failing `Read`). -/
def readN (n : Nat) (s : Bytes) : Option (Bytes × Bytes) :=
  if n ≤ s.length then some (s.take n, s.drop n) else none

/-- `bytes.Split(values, []byte{0})`: split on every NUL byte; the empty
string splits to one empty segment, as in Go. -/
def splitNul : Bytes → List Bytes
  | [] => [[]]
  | b :: rest =>
    if b = 0 then [] :: splitNul rest
    else
      match splitNul rest with
      | [] => [[b]]
      | seg :: segs => (b :: seg) :: segs

/-- A header mapping: names to ordered value lists, insertion-ordered.
Modelled from the spec: §3, a `Header` maps a name to an ordered sequence
of values, order of arrival preserved (the `Header` type is declared
outside `src/`). -/
abbrev Header := List (Bytes × List Bytes)

/-- `Header.Add`: append `value` under `name`, preserving per-name
insertion order.  Modelled from the spec: §3 (declared outside `src/`). -/
def headerAdd (h : Header) (name value : Bytes) : Header :=
  match h with
  | [] => [(name, [value])]
  | (n, vs) :: rest =>
    if n = name then (n, vs ++ [value]) :: rest
    else (n, vs) :: headerAdd rest name value

/-- Errors surfaced by the embedded operations. -/
inductive SpdyError where
  | unsupportedVersion
  | headerNameOverflow
  | headerValueOverflow
  | shortRead
  | protocolError
  | invalidFlags
  | incorrectDataLength (got want : Nat)
  deriving DecidableEq, Repr

/-- Outcome of a `Decompress` call: a returned header, a returned error,
or a Go runtime `panic`. -/
inductive DecompOutcome where
  | ok (h : Header)
  | err (e : SpdyError)
  | panicked
  deriving DecidableEq, Repr

/-- The name/value-pair loop of `Decompressor.Decompress`
(`compression.go` lines 90–135), reading from the inflated stream `s`.
`w` is the field width (2 for SPDY/2, 4 for SPDY/3), `n` the remaining
pair count, `bounds` the running budget, `h` the accumulated header.
Mirrors the source exactly, including the `panic(err)` sites on a failed
read of the name bytes (line 106) and of the value length (line 112),
versus the clean error returns on a failed read of the name length
(line 94) and of the value bytes (line 123). -/
def decompressPairs (w : Nat) : Nat → Nat → Bytes → Header → DecompOutcome
  | 0, _, _, h => .ok h
  | n + 1, bounds, s, h =>
    match readN w s with
    | none => .err .shortRead
    | some (c, s) =>
      let nameLength := beVal c
      if nameLength > bounds then .err .headerNameOverflow
      else
        match readN nameLength s with
        | none => .panicked
        | some (name, s) =>
          match readN w s with
          | none => .panicked
          | some (c, s) =>
            let valueLength := beVal c
            if valueLength > bounds - nameLength then .err .headerValueOverflow
            else
              match readN valueLength s with
              | none => .err .shortRead
              | some (values, s) =>
                decompressPairs w n (bounds - nameLength - valueLength) s
                  ((splitNul values).foldl (fun h v => headerAdd h name v) h)

/-- The body of `Decompressor.Decompress` after the zlib reader is set up
(`compression.go` lines 61–139), applied to the inflated byte stream:
select the field width by version (2 bytes for v2, 4 for v3, else
`versionError`), read the pair count — a failed read here is the
`panic(err)` at line 82 — then run the pair loop with the budget
initialised to `MAX_FRAME_SIZE - 12` (line 89). -/
def decompressStream (version : Nat) (s : Bytes) : DecompOutcome :=
  if version = 2 then
    match readN 2 s with
    | none => .panicked
    | some (c, s) => decompressPairs 2 (beVal c) (MAX_FRAME_SIZE - 12) s []
  else if version = 3 then
    match readN 4 s with
    | none => .panicked
    | some (c, s) => decompressPairs 4 (beVal c) (MAX_FRAME_SIZE - 12) s []
  else .err .unsupportedVersion

/-- State of a `Decompressor` (`compression.go` lines 16–21): the bound
SPDY version, the input buffer `d.in` (`none` models the nil pointer) and
whether the zlib reader `d.out` has been initialised. -/
structure DecompressorState where
  version : Nat
  inBuf : Option Bytes
  outInit : Bool
  deriving DecidableEq, Repr

/-- `NewDecompressor(version)` (`compression.go` lines 25–29). -/
def NewDecompressor (version : Nat) : DecompressorState :=
  ⟨version, none, false⟩

/-- The input-buffer update at the top of `Decompress` (`compression.go`
lines 37–42): when `d.in` is nil a fresh buffer holding `data` is
created; otherwise the buffer is `Reset()` — emptied, discarding any
bytes the zlib reader has not consumed — and `data` written, so in both
cases the buffer afterwards holds exactly `data`. -/
def decompressorFeed (inBuf : Option Bytes) (data : Bytes) : Bytes :=
  match inBuf with
  | none => data
  | some _ => data

/-- One call to `Decompressor.Decompress` (`compression.go` lines
33–140).  The input buffer is updated per `decompressorFeed`; if the
zlib reader is not yet initialised it is created with the version's
dictionary, versions outside {2,3} failing with `versionError`
(lines 46–59).  The zlib layer is modelled from the spec as a lossless
block-aligned codec (§4.2 SYNC_FLUSH), so the inflated bytes available
to this call are exactly the buffer's contents, on which the parsing
body `decompressStream` runs. -/
def decompressCall (st : DecompressorState) (data : Bytes) :
    DecompressorState × DecompOutcome :=
  let buf := decompressorFeed st.inBuf data
  let st := { st with inBuf := some buf }
  if st.outInit then
    (st, decompressStream st.version buf)
  else if st.version = 2 then ({ st with outInit := true }, decompressStream 2 buf)
  else if st.version = 3 then ({ st with outInit := true }, decompressStream 3 buf)
  else (st, .err .unsupportedVersion)

/-- A sequence of `Decompress` calls on one `Decompressor`, returning the
outcome of each call in order. -/
def decompressCalls (st : DecompressorState) : List Bytes → List DecompOutcome
  | [] => []
  | d :: ds =>
    let (st, r) := decompressCall st d
    r :: decompressCalls st ds

/-- State of a `Compressor` (`compression.go` lines 146–151): the bound
SPDY version, whether the output buffer `c.buf` has been allocated, and
whether the zlib writer `c.w` has been created. -/
structure CompressorState where
  version : Nat
  bufInit : Bool
  wInit : Bool
  deriving DecidableEq, Repr

/-- `NewCompressor(version)` (`compression.go` lines 155–159). -/
def NewCompressor (version : Nat) : CompressorState :=
  ⟨version, false, false⟩

/-- Outcome of a `Compress` call: the returned compressed bytes, a
returned error, or a Go runtime panic. -/
inductive CompressOutcome where
  | ok (out : Bytes)
  | err (e : SpdyError)
  | panicked
  deriving DecidableEq, Repr

/-- One call to `Compressor.Compress` (`compression.go` lines 163–194).
On the first call `c.buf` is allocated and the zlib writer created with
the version's dictionary — versions outside {2,3} fail with
`versionError` after `c.buf` has already been assigned (lines 168–182).
On later calls `c.buf` is only `Reset()`.  Then `c.w.Write(data)` runs:
if the writer was never created (`c.w` still nil), this dereferences a
nil pointer — a Go runtime panic.  The zlib layer is modelled from the
spec as a lossless block-aligned codec (§4.2: `Flush` with SYNC_FLUSH
makes the block self-contained), so a successful call's output is
modelled as the bytes written. -/
def compressCall (st : CompressorState) (data : Bytes) :
    CompressorState × CompressOutcome :=
  if st.bufInit then
    if st.wInit then (st, .ok data) else (st, .panicked)
  else
    let st := { st with bufInit := true }
    if st.version = 2 then ({ st with wInit := true }, .ok data)
    else if st.version = 3 then ({ st with wInit := true }, .ok data)
    else (st, .err .unsupportedVersion)

/-! ## Header-block wire form and the compress/decompress pipeline -/

/-- Field width of a SPDY version's header-block length fields: 2 bytes
for SPDY/2, 4 bytes for SPDY/3 (`compression.go` lines 64–78). -/
def widthOf (v : Nat) : Nat := if v = 2 then 2 else 4

/-- One header-block pair (name, value) in wire form: a `w`-byte
big-endian length, the name bytes, a `w`-byte big-endian length, the
value bytes.  Modelled from the spec: §4.3 "Header-block wire form"
(the serializer is declared outside `src/`). -/
def encodePair (w : Nat) (p : Bytes × Bytes) : Bytes :=
  beBytes w p.1.length ++ p.1 ++ beBytes w p.2.length ++ p.2

/-- A header block in wire form: the `w`-byte big-endian pair count,
then each pair.  Modelled from the spec: §4.3, §6 (widths: 2 for SPDY/2,
4 for SPDY/3). -/
def encodeBlock (w : Nat) (ps : List (Bytes × Bytes)) : Bytes :=
  beBytes w ps.length ++ (ps.map (encodePair w)).flatten

/-- The pair list satisfies the running budget of `Decompress`: each
name length, and then each value length, is at most what remains of
`bounds`. -/
def fitsBudget (bounds : Nat) : List (Bytes × Bytes) → Bool
  | [] => true
  | (n, v) :: rest =>
    n.length ≤ bounds && v.length ≤ bounds - n.length &&
      fitsBudget (bounds - n.length - v.length) rest

/-- A well-formed pair for width `w`: all bytes are byte values and the
name and value lengths fit in the `w`-byte length field. -/
def validPair (w : Nat) (p : Bytes × Bytes) : Bool :=
  (p.1 ++ p.2).all (· < 256) && p.1.length < 256 ^ w && p.2.length < 256 ^ w

/-- A well-formed header block for width `w`: well-formed pairs, a pair
count that fits the count field, and name/value lengths within the
decompressor's budget (a block that fits in one frame). -/
def validBlock (w : Nat) (ps : List (Bytes × Bytes)) : Bool :=
  ps.all (validPair w) && ps.length < 256 ^ w &&
    fitsBudget (MAX_FRAME_SIZE - 12) ps

/-- Total declared name/value bytes of a pair list. -/
def consumed (ps : List (Bytes × Bytes)) : Nat :=
  (ps.map (fun p => p.1.length + p.2.length)).sum

/-- Add a list of pairs to a header: each pair's value is split on NUL
bytes and every segment added under the pair's name, in order — the
accumulation step of `Decompress` (`compression.go` lines 131–134). -/
def addAll (h : Header) (ps : List (Bytes × Bytes)) : Header :=
  ps.foldl (fun h p => (splitNul p.2).foldl (fun h v => headerAdd h p.1 v) h) h

/-- The header mapping encoded in a pair list (the spec's §3/§4.2
reading of a header block). -/
def blockHeader (ps : List (Bytes × Bytes)) : Header :=
  addAll [] ps

/-- Feed a sequence of already-serialized header blocks through one
`Compressor` and one `Decompressor`: each block is compressed and the
compressed bytes handed, in order, to the decompressor; the outcome of
each `Decompress` call is returned.  A compression error or panic ends
the pipeline with that outcome. -/
def pipeline (cs : CompressorState) (ds : DecompressorState) :
    List Bytes → List DecompOutcome
  | [] => []
  | b :: bs =>
    match compressCall cs b with
    | (cs, .ok out) =>
      let (ds, r) := decompressCall ds out
      r :: pipeline cs ds bs
    | (_, .err e) => [.err e]
    | (_, .panicked) => [.panicked]

/-! ## The SPDY/2 NOOP frame -/

/-- Control-frame type number of NOOP. -/
def NOOP : Nat := 5

/-- `controlFrameCommonProcessing(data, frameType, flags)` over the
first 5 header bytes.  Modelled from the spec: §4.3 "Common header
validation" — verify the C-bit is set (control frame), the version
equals the framer's bound version (2 for the `spdy2/frames` package),
and the declared type matches the expected type, mismatches being
`ProtocolError`; and "Flag validation" — flag bits outside the allowed
mask are rejected with `InvalidFlags`.  (The function is declared
outside `src/`.) -/
def controlFrameCommonProcessing (data : Bytes) (frameType allowedFlags : Nat) :
    Option SpdyError :=
  match data with
  | [b0, b1, b2, b3, b4] =>
    if b0 < 128 then some .protocolError
    else if (b0 - 128) * 256 + b1 ≠ 2 then some .protocolError
    else if b2 * 256 + b3 ≠ frameType then some .protocolError
    else if b4 &&& (255 - allowedFlags) ≠ 0 then some .invalidFlags
    else none
  | _ => some .protocolError

/-- `NoopFrame.ReadFrom` (`spdy2/frames/noop.go` lines 23–41): read
exactly 8 bytes (`common.ReadExactly`, modelled from the spec's §4.1
`read_exactly`: exactly `n` bytes or a short-read error with 0 bytes
reported), run common processing on the first 5, then read the 24-bit
big-endian declared length from bytes 5..8 and reject a nonzero length
with `IncorrectDataLength(length, 0)`; returns the reported byte count
and the error, if any. -/
def noopReadFrom (src : Bytes) : Nat × Option SpdyError :=
  match readN 8 src with
  | none => (0, some .shortRead)
  | some (data, _) =>
    match controlFrameCommonProcessing (data.take 5) NOOP 0 with
    | some e => (8, some e)
    | none =>
      let length := beVal (data.drop 5)
      if length ≠ 0 then (8, some (.incorrectDataLength length 0))
      else (8, none)

/-- `NoopFrame.WriteTo` (`spdy2/frames/noop.go` lines 47–49): the body
is `return 0, nil` — nothing is written to the sink.  Returns the sink
after the call, the reported byte count and the error, if any. -/
def noopWriteTo (sink : Bytes) : Bytes × Nat × Option SpdyError :=
  (sink, 0, none)

/-! ## Basic lemmas on the wire-codec primitives -/

theorem beBytes_length (w n : Nat) : (beBytes w n).length = w := by
  induction w generalizing n with
  | zero => rfl
  | succ w ih => simp [beBytes, ih]

theorem beVal_beBytes (w n : Nat) (h : n < 256 ^ w) : beVal (beBytes w n) = n := by
  induction w generalizing n with
  | zero =>
    simp only [pow_zero, Nat.lt_one_iff] at h
    simp [h, beBytes, beVal]
  | succ w ih =>
    have hdiv : n / 256 < 256 ^ w := by
      rw [Nat.div_lt_iff_lt_mul (by norm_num)]
      calc n < 256 ^ (w + 1) := h
        _ = 256 ^ w * 256 := by ring
    simp only [beBytes, beVal, List.foldl_append, List.foldl_cons, List.foldl_nil]
    have := ih (n / 256) hdiv
    simp only [beVal] at this
    rw [this]
    omega

theorem readN_exact (l r : Bytes) : readN l.length (l ++ r) = some (l, r) := by
  simp [readN, List.take_left, List.drop_left]

theorem readN_beBytes (w n : Nat) (r : Bytes) :
    readN w (beBytes w n ++ r) = some (beBytes w n, r) := by
  have h := readN_exact (beBytes w n) r
  rwa [beBytes_length] at h

theorem readN_exact' (n : Nat) (l r : Bytes) (h : l.length = n) :
    readN n (l ++ r) = some (l, r) := h ▸ readN_exact l r

/-! ## The pair loop on well-formed encodings -/

/-- Consuming one well-formed, in-budget encoded pair from the stream:
the loop reads the name and value and recurses with the budget reduced
by both declared lengths. -/
theorem decompressPairs_step (w n bounds : Nat) (name value rest : Bytes) (h : Header)
    (hn : name.length < 256 ^ w) (hvl : value.length < 256 ^ w)
    (h1 : name.length ≤ bounds) (h2 : value.length ≤ bounds - name.length) :
    decompressPairs w (n + 1) bounds (encodePair w (name, value) ++ rest) h =
      decompressPairs w n (bounds - name.length - value.length) rest
        ((splitNul value).foldl (fun h v => headerAdd h name v) h) := by
  simp only [encodePair, List.append_assoc, decompressPairs, readN_beBytes,
    beVal_beBytes w name.length hn, beVal_beBytes w value.length hvl, readN_exact]
  rw [if_neg (by omega), if_neg (by omega)]

/-- Walking the loop over a list of well-formed, in-budget encoded
pairs: the pairs are accumulated into the header and the budget drops by
the total declared lengths. -/
theorem decompressPairs_walk (w : Nat) (ps : List (Bytes × Bytes)) :
    ∀ (n bounds : Nat) (tail : Bytes) (h : Header),
    (∀ p ∈ ps, validPair w p = true) → fitsBudget bounds ps = true →
    decompressPairs w (ps.length + n) bounds ((ps.map (encodePair w)).flatten ++ tail) h =
      decompressPairs w n (bounds - consumed ps) tail (addAll h ps) := by
  induction ps with
  | nil => intro n bounds tail h _ _; simp [consumed, addAll]
  | cons p ps ih =>
    intro n bounds tail h hv hb
    obtain ⟨name, value⟩ := p
    simp only [fitsBudget, Bool.and_eq_true, decide_eq_true_eq] at hb
    obtain ⟨⟨h1, h2⟩, h3⟩ := hb
    have hvp : validPair w (name, value) = true := hv _ (List.mem_cons_self _ _)
    simp only [validPair, Bool.and_eq_true, decide_eq_true_eq] at hvp
    obtain ⟨⟨_, hn⟩, hvl⟩ := hvp
    simp only [List.map_cons, List.flatten_cons, List.length_cons, List.append_assoc]
    rw [show ps.length + 1 + n = ps.length + n + 1 by omega]
    rw [decompressPairs_step w (ps.length + n) bounds name value _ h hn hvl h1 h2]
    rw [ih n (bounds - name.length - value.length) tail _
      (fun q hq => hv q (List.mem_cons_of_mem _ hq)) h3]
    congr 1
    simp only [consumed, List.map_cons, List.sum_cons]
    omega

/-- The pair loop on an exactly encoded pair list yields the accumulated
header. -/
theorem decompressPairs_encode (w : Nat) (ps : List (Bytes × Bytes)) (bounds : Nat) (h : Header)
    (hv : ∀ p ∈ ps, validPair w p = true) (hb : fitsBudget bounds ps = true) :
    decompressPairs w ps.length bounds ((ps.map (encodePair w)).flatten) h
      = .ok (addAll h ps) := by
  have hw := decompressPairs_walk w ps 0 bounds [] h hv hb
  simpa [decompressPairs] using hw

theorem widthOf_two : widthOf 2 = 2 := rfl

theorem widthOf_three : widthOf 3 = 4 := rfl

/-- `decompressStream` at version 2 unfolds to the 2-byte-count branch. -/
theorem decompressStream_two (s : Bytes) :
    decompressStream 2 s =
      match readN 2 s with
      | none => .panicked
      | some (c, s) => decompressPairs 2 (beVal c) (MAX_FRAME_SIZE - 12) s [] := rfl

/-- `decompressStream` at version 3 unfolds to the 4-byte-count branch. -/
theorem decompressStream_three (s : Bytes) :
    decompressStream 3 s =
      match readN 4 s with
      | none => .panicked
      | some (c, s) => decompressPairs 4 (beVal c) (MAX_FRAME_SIZE - 12) s [] := rfl

/-- `Decompress`'s parsing body recovers from a well-formed encoded
header block exactly the header mapping it encodes, for both SPDY
versions. -/
theorem decompressStream_encodeBlock (v : Nat) (ps : List (Bytes × Bytes))
    (hv : v = 2 ∨ v = 3) (hvb : validBlock (widthOf v) ps = true) :
    decompressStream v (encodeBlock (widthOf v) ps) = .ok (blockHeader ps) := by
  rcases hv with rfl | rfl
  · rw [widthOf_two] at hvb ⊢
    simp only [validBlock, Bool.and_eq_true, decide_eq_true_eq, List.all_eq_true] at hvb
    obtain ⟨⟨hall, hcount⟩, hbudget⟩ := hvb
    simp only [encodeBlock, decompressStream_two, readN_beBytes,
      beVal_beBytes 2 ps.length hcount]
    exact decompressPairs_encode 2 ps _ [] hall hbudget
  · rw [widthOf_three] at hvb ⊢
    simp only [validBlock, Bool.and_eq_true, decide_eq_true_eq, List.all_eq_true] at hvb
    obtain ⟨⟨hall, hcount⟩, hbudget⟩ := hvb
    simp only [encodeBlock, decompressStream_three, readN_beBytes,
      beVal_beBytes 4 ps.length hcount]
    exact decompressPairs_encode 4 ps _ [] hall hbudget

/-- A declared name length exceeding the remaining budget makes the loop
return the name-overflow error at once, whatever follows in the stream —
in particular even when the stream holds none of the declared bytes. -/
theorem decompressPairs_nameOverflow (w n bounds d : Nat) (tail : Bytes) (h : Header)
    (hd : d < 256 ^ w) (hover : bounds < d) :
    decompressPairs w (n + 1) bounds (beBytes w d ++ tail) h = .err .headerNameOverflow := by
  simp only [decompressPairs, readN_beBytes, beVal_beBytes w d hd]
  rw [if_pos (by omega)]

/-- A declared value length exceeding the remaining budget (after the
name) makes the loop return the value-overflow error at once, whatever
follows in the stream. -/
theorem decompressPairs_valueOverflow (w n bounds : Nat) (name : Bytes) (d : Nat)
    (tail : Bytes) (h : Header)
    (hn : name.length < 256 ^ w) (hnb : name.length ≤ bounds)
    (hd : d < 256 ^ w) (hover : bounds - name.length < d) :
    decompressPairs w (n + 1) bounds
        (beBytes w name.length ++ name ++ beBytes w d ++ tail) h
      = .err .headerValueOverflow := by
  simp only [List.append_assoc, decompressPairs, readN_beBytes,
    beVal_beBytes w name.length hn, beVal_beBytes w d hd, readN_exact]
  rw [if_neg (by omega), if_pos (by omega)]

/-- After consuming a valid in-budget prefix of pairs, an over-budget
declared name length or value length is rejected with the corresponding
overflow error, even though the stream ends right after the length
field. -/
theorem decompressPairs_overflow (w : Nat) (ps : List (Bytes × Bytes)) (k bounds : Nat)
    (hvalid : ∀ p ∈ ps, validPair w p = true)
    (hbudget : fitsBudget bounds ps = true) :
    (∀ d : Nat, d < 256 ^ w → bounds - consumed ps < d →
      decompressPairs w (ps.length + (k + 1)) bounds
          ((ps.map (encodePair w)).flatten ++ beBytes w d) [] =
        .err .headerNameOverflow) ∧
    (∀ (name : Bytes) (d : Nat), name.length < 256 ^ w →
      name.length ≤ bounds - consumed ps →
      d < 256 ^ w → bounds - consumed ps - name.length < d →
      decompressPairs w (ps.length + (k + 1)) bounds
          ((ps.map (encodePair w)).flatten ++
            (beBytes w name.length ++ (name ++ beBytes w d))) [] =
        .err .headerValueOverflow) := by
  constructor
  · intro d hd hover
    rw [decompressPairs_walk w ps (k + 1) bounds _ [] hvalid hbudget]
    have h := decompressPairs_nameOverflow w k (bounds - consumed ps) d []
      (addAll [] ps) hd hover
    simpa using h
  · intro name d hn hnb hd hover
    rw [decompressPairs_walk w ps (k + 1) bounds _ [] hvalid hbudget]
    have h := decompressPairs_valueOverflow w k (bounds - consumed ps) name d []
      (addAll [] ps) hn hnb hd hover
    simpa [List.append_assoc] using h

/-! ## State-machine lemmas for the Compressor and Decompressor -/

/-- After initialisation, `Compress` returns its input under the
lossless-codec model and leaves the state unchanged. -/
theorem compressCall_steady (st : CompressorState) (d : Bytes)
    (h1 : st.bufInit = true) (h2 : st.wInit = true) :
    compressCall st d = (st, .ok d) := by
  simp [compressCall, h1, h2]

/-- The first `Compress` call on a fresh valid-version compressor
initialises the buffer and writer and returns its input. -/
theorem compressCall_first (v : Nat) (hv : v = 2 ∨ v = 3) (d : Bytes) :
    compressCall (NewCompressor v) d = (⟨v, true, true⟩, .ok d) := by
  rcases hv with rfl | rfl <;> rfl

/-- Any `Decompress` call on a decompressor bound to version 2 or 3
replaces the input buffer with the new data, leaves the reader
initialised, and runs the parsing body on the inflated bytes. -/
theorem decompressCall_good (st : DecompressorState) (d : Bytes)
    (hv : st.version = 2 ∨ st.version = 3) :
    decompressCall st d = (⟨st.version, some d, true⟩, decompressStream st.version d) := by
  obtain ⟨ver, ib, oi⟩ := st
  simp only at hv
  cases oi
  · rcases hv with rfl | rfl <;> cases ib <;> rfl
  · cases ib <;> rfl

/-- On a version outside {2,3}, a fresh decompressor returns
`versionError` from every call: the reader is never initialised, so each
call fails at the dictionary switch. -/
theorem decompressCalls_badVersion (v : Nat) (h2 : v ≠ 2) (h3 : v ≠ 3) :
    ∀ (ds : List Bytes) (st : DecompressorState), st.version = v → st.outInit = false →
    decompressCalls st ds = ds.map (fun _ => .err .unsupportedVersion) := by
  intro ds
  induction ds with
  | nil => intro st _ _; rfl
  | cons d ds ih =>
    intro st hver hout
    obtain ⟨ver, ib, oi⟩ := st
    simp only at hver hout
    subst hver hout
    simp only [decompressCalls, decompressCall, Bool.false_eq_true, if_false, if_neg h2,
      if_neg h3, List.map_cons]
    exact congrArg _ (ih _ rfl rfl)

/-- Feeding well-formed encoded blocks through an already-initialised
compressor and a version-matched decompressor decodes every block. -/
theorem pipeline_good (v : Nat) (hv : v = 2 ∨ v = 3) :
    ∀ (pss : List (List (Bytes × Bytes))) (cs : CompressorState) (ds : DecompressorState),
    cs.bufInit = true → cs.wInit = true → ds.version = v →
    (∀ ps ∈ pss, validBlock (widthOf v) ps = true) →
    pipeline cs ds (pss.map (encodeBlock (widthOf v))) =
      pss.map (fun ps => .ok (blockHeader ps)) := by
  intro pss
  induction pss with
  | nil => intro cs ds _ _ _ _; rfl
  | cons ps pss ih =>
    intro cs ds hb hw hver hvb
    simp only [List.map_cons, pipeline, compressCall_steady cs _ hb hw]
    rw [decompressCall_good ds _ (hver ▸ hv), hver]
    rw [decompressStream_encodeBlock v ps hv (hvb ps (List.mem_cons_self _ _))]
    exact congrArg _ (ih _ _ hb hw rfl
      (fun q hq => hvb q (List.mem_cons_of_mem _ hq)))

/-! ## Claim theorems -/

/-- C1: for every SPDY version v in {2,3} and every sequence of valid
header-block byte strings (well-formed encodings `encodeBlock`),
compressing each block in order with a single Compressor for v and
feeding each compressed output, in the same order, into a single
Decompressor for v yields exactly the header mappings the blocks encode:
same names, same values, same per-name value order (`blockHeader`). -/
theorem C1_compress_decompress_roundtrip (v : Nat) (hv : v = 2 ∨ v = 3)
    (pss : List (List (Bytes × Bytes)))
    (hvb : ∀ ps ∈ pss, validBlock (widthOf v) ps = true) :
    pipeline (NewCompressor v) (NewDecompressor v) (pss.map (encodeBlock (widthOf v))) =
      pss.map (fun ps => .ok (blockHeader ps)) := by
  cases pss with
  | nil => rfl
  | cons ps pss =>
    simp only [List.map_cons, pipeline, compressCall_first v hv]
    rw [decompressCall_good (NewDecompressor v) _ hv]
    simp only [NewDecompressor]
    rw [decompressStream_encodeBlock v ps hv (hvb ps (List.mem_cons_self _ _))]
    exact congrArg _ (pipeline_good v hv pss ⟨v, true, true⟩ _ rfl rfl rfl
      (fun q hq => hvb q (List.mem_cons_of_mem _ hq)))

/-- Witness for C1 at version 3 with two blocks, the second carrying a
NUL-joined multi-value. -/
theorem C1_witness :
    pipeline (NewCompressor 3) (NewDecompressor 3)
        ([[([97], [49])], [([98], [50, 0, 51])]].map (encodeBlock (widthOf 3))) =
      [[([97], [49])], [([98], [50, 0, 51])]].map
        (fun ps => DecompOutcome.ok (blockHeader ps)) :=
  C1_compress_decompress_roundtrip 3 (Or.inr rfl) _ (by decide)

/-- C2 counterexample: a NOOP frame parsed from
`80 02 00 05 00 00 00 00` re-serializes to zero bytes, not those 8
bytes, and parsing `WriteTo`'s (empty) output fails with a short read —
so serialize-then-parse does not yield the same frame. -/
theorem C2_counterexample :
    noopReadFrom [128, 2, 0, 5, 0, 0, 0, 0] = (8, none) ∧
    noopWriteTo [] = ([], 0, none) ∧
    ([] : Bytes) ≠ [128, 2, 0, 5, 0, 0, 0, 0] ∧
    noopReadFrom [] = (0, some .shortRead) := by decide

/-- C2 amended: `NoopFrame.WriteTo` writes no bytes and returns
`(0, nil)`, so the NOOP round trip fails: parsing the produced (empty)
bytes errors with a short read, and re-serializing a NOOP frame parsed
from `80 02 00 05 00 00 00 00` produces zero bytes rather than those
8 bytes. -/
theorem C2_noop_no_roundtrip :
    (∀ sink : Bytes, noopWriteTo sink = (sink, 0, none)) ∧
    noopReadFrom [128, 2, 0, 5, 0, 0, 0, 0] = (8, none) ∧
    noopReadFrom [] = (0, some .shortRead) :=
  ⟨fun _ => rfl, by decide, by decide⟩

/-- C3: contrary to the claim, `Decompressor.Decompress` panics — via
the `panic(err)` sites at `compression.go` lines 82, 106 and 112 —
when a read from the DEFLATE stream fails while reading the pair count
(empty inflated stream), the name bytes (stream ends inside the name),
or the value length (stream ends before it); the `return nil, err`
after each `panic(err)` is unreachable.  Shown at version 2 on the three
truncated streams, and at the `Decompress`-call level for an initialised
decompressor fed empty input. -/
theorem C3_decompress_panics :
    decompressStream 2 [] = .panicked ∧
    decompressStream 2 [0, 1, 0, 2, 97] = .panicked ∧
    decompressStream 2 [0, 1, 0, 1, 97] = .panicked ∧
    (decompressCall ⟨2, some [], true⟩ []).2 = .panicked := by decide

/-- C4: during one `Decompress` call the budget starts at
`MAX_FRAME_SIZE − 12` and shrinks by each declared name and value
length; a declared name length (first conjunct) or value length (second
conjunct) exceeding the remaining budget is rejected with the
corresponding overflow error.  The streams end immediately after the
offending length field — no buffer of the declared size is read or
allocated, or the result would be a short-read error or panic instead. -/
theorem C4_header_overflow (v : Nat) (hv : v = 2 ∨ v = 3)
    (ps : List (Bytes × Bytes)) (m : Nat)
    (hvalid : ∀ p ∈ ps, validPair (widthOf v) p = true)
    (hbudget : fitsBudget (MAX_FRAME_SIZE - 12) ps = true)
    (hm : m < 256 ^ widthOf v) (hcount : ps.length < m) :
    (∀ d : Nat, d < 256 ^ widthOf v → MAX_FRAME_SIZE - 12 - consumed ps < d →
      decompressStream v (beBytes (widthOf v) m ++
          ((ps.map (encodePair (widthOf v))).flatten ++ beBytes (widthOf v) d)) =
        .err .headerNameOverflow) ∧
    (∀ (name : Bytes) (d : Nat), name.length < 256 ^ widthOf v →
      name.length ≤ MAX_FRAME_SIZE - 12 - consumed ps →
      d < 256 ^ widthOf v → MAX_FRAME_SIZE - 12 - consumed ps - name.length < d →
      decompressStream v (beBytes (widthOf v) m ++
          ((ps.map (encodePair (widthOf v))).flatten ++
            (beBytes (widthOf v) name.length ++ (name ++ beBytes (widthOf v) d)))) =
        .err .headerValueOverflow) := by
  obtain ⟨k, rfl⟩ : ∃ k, m = ps.length + (k + 1) := ⟨m - ps.length - 1, by omega⟩
  rcases hv with rfl | rfl
  · rw [widthOf_two] at hvalid hm ⊢
    have h := decompressPairs_overflow 2 ps k (MAX_FRAME_SIZE - 12) hvalid hbudget
    constructor
    · intro d hd hover
      simp only [decompressStream_two, readN_beBytes,
        beVal_beBytes 2 (ps.length + (k + 1)) hm]
      exact h.1 d hd hover
    · intro name d hn hnb hd hover
      simp only [decompressStream_two, readN_beBytes,
        beVal_beBytes 2 (ps.length + (k + 1)) hm]
      exact h.2 name d hn hnb hd hover
  · rw [widthOf_three] at hvalid hm ⊢
    have h := decompressPairs_overflow 4 ps k (MAX_FRAME_SIZE - 12) hvalid hbudget
    constructor
    · intro d hd hover
      simp only [decompressStream_three, readN_beBytes,
        beVal_beBytes 4 (ps.length + (k + 1)) hm]
      exact h.1 d hd hover
    · intro name d hn hnb hd hover
      simp only [decompressStream_three, readN_beBytes,
        beVal_beBytes 4 (ps.length + (k + 1)) hm]
      exact h.2 name d hn hnb hd hover

/-- Witness for C4 at version 3: after one in-budget pair (2 bytes
consumed of the 16777203-byte budget), a declared name length of
16777202 and, separately, a declared value length of 16777201 are both
over budget and rejected. -/
theorem C4_witness :
    decompressStream 3 (beBytes (widthOf 3) 2 ++
        (([([97], [49])].map (encodePair (widthOf 3))).flatten ++
          beBytes (widthOf 3) 16777202)) = .err .headerNameOverflow ∧
    decompressStream 3 (beBytes (widthOf 3) 2 ++
        (([([97], [49])].map (encodePair (widthOf 3))).flatten ++
          (beBytes (widthOf 3) ([98] : Bytes).length ++
            ([98] ++ beBytes (widthOf 3) 16777201)))) = .err .headerValueOverflow := by
  have h := C4_header_overflow 3 (Or.inr rfl) [([97], [49])] 2
    (by decide) (by decide) (by decide) (by decide)
  exact ⟨h.1 16777202 (by decide) (by decide),
    h.2 [98] 16777201 (by decide) (by decide) (by decide) (by decide)⟩

/-- C5 counterexample: a `Decompress` call on a decompressor whose
buffer still holds the unconsumed byte 9 and whose reader is
initialised leaves the buffer holding only the new input `[7]` — not
the appended `[9, 7]` the claim requires. -/
theorem C5_counterexample :
    (decompressCall ⟨2, some [9], true⟩ [7]).1.inBuf = some [7] ∧
    (some [7] : Option Bytes) ≠ some ([9] ++ [7]) := by decide

/-- C5 amended: each call to `Decompress` resets the internal source
buffer before writing, so afterwards the buffer holds exactly the new
input; compressed bytes from an earlier call not yet consumed by the
DEFLATE reader are discarded, not retained. -/
theorem C5_buffer_replaced (st : DecompressorState) (data : Bytes) :
    (decompressCall st data).1.inBuf = some data := by
  obtain ⟨v, ib, oi⟩ := st
  cases ib <;> cases oi <;>
    · simp only [decompressCall, decompressorFeed]
      split_ifs <;> rfl

/-- C6 counterexample: on a Compressor constructed with version 4, the
second `Compress` call does not return `UnsupportedVersion` — the
output buffer was allocated by the first call, so the second call skips
initialisation and calls `Write` on the never-created (nil) zlib
writer: a runtime panic. -/
theorem C6_counterexample :
    (compressCall (compressCall (NewCompressor 4) [1]).1 [2]).2 = .panicked ∧
    CompressOutcome.panicked ≠ CompressOutcome.err .unsupportedVersion := by decide

/-- C6 amended: for every version outside {2,3}, the first `Compress`
call and every `Decompress` call return the `UnsupportedVersion` error
(the decompressor's reader is never initialised, so all later calls
fail the same way); but the second and later `Compress` calls on the
same object dereference the nil zlib writer and panic instead of
returning the error. -/
theorem C6_unsupported_version (v : Nat) (h2 : v ≠ 2) (h3 : v ≠ 3) :
    (∀ data : Bytes,
      (compressCall (NewCompressor v) data).2 = .err .unsupportedVersion) ∧
    (∀ datas : List Bytes, decompressCalls (NewDecompressor v) datas =
      datas.map (fun _ => .err .unsupportedVersion)) ∧
    (∀ data data' : Bytes,
      (compressCall (compressCall (NewCompressor v) data).1 data').2 = .panicked) := by
  refine ⟨fun data => ?_,
    fun datas => decompressCalls_badVersion v h2 h3 datas _ rfl rfl,
    fun data data' => ?_⟩
  · simp [compressCall, NewCompressor, h2, h3]
  · simp [compressCall, NewCompressor, h2, h3]

/-- Witness for C6 at version 7 with two decompress calls. -/
theorem C6_witness :
    (compressCall (NewCompressor 7) [5]).2 = .err .unsupportedVersion ∧
    decompressCalls (NewDecompressor 7) [[1], [2]] =
      [[1], [2]].map (fun _ => DecompOutcome.err .unsupportedVersion) ∧
    (compressCall (compressCall (NewCompressor 7) [5]).1 [6]).2 = .panicked := by
  obtain ⟨hc, hd, hp⟩ := C6_unsupported_version 7 (by decide) (by decide)
  exact ⟨hc [5], hd [[1], [2]], hp [5] [6]⟩

/-- C7: on a successful `Decompress`, the header block is parsed as a
big-endian pair count (2 bytes for version 2, 4 bytes for version 3)
followed by pairs of length-prefixed names and values of the same
width; each value is split on NUL bytes, every segment added as a
separate value under the name, and per-name insertion order preserved
(`blockHeader` is built with the order-preserving `headerAdd`). -/
theorem C7_decompress_format (v : Nat) (hv : v = 2 ∨ v = 3)
    (ps : List (Bytes × Bytes)) (hvb : validBlock (widthOf v) ps = true) :
    decompressStream v (encodeBlock (widthOf v) ps) = .ok (blockHeader ps) :=
  decompressStream_encodeBlock v ps hv hvb

/-- Witness for C7 at version 2: a NUL-joined value and a repeated name,
exercising the split and the per-name ordering. -/
theorem C7_witness :
    decompressStream 2
        (encodeBlock (widthOf 2) [([97], [49, 0, 50]), ([98], [51]), ([97], [52])]) =
      .ok (blockHeader [([97], [49, 0, 50]), ([98], [51]), ([97], [52])]) :=
  C7_decompress_format 2 (Or.inl rfl) _ (by decide)

/-- C8: `NoopFrame.ReadFrom`, on any source whose first five bytes pass
common control-frame processing, reports 8 bytes consumed and rejects a
nonzero declared 24-bit payload length with
`IncorrectDataLength(length, 0)`, accepting a declared length of
zero. -/
theorem C8_noop_length_check (b0 b1 b2 b3 b4 b5 b6 b7 : Nat) (rest : Bytes)
    (hcommon : controlFrameCommonProcessing [b0, b1, b2, b3, b4] NOOP 0 = none) :
    noopReadFrom ([b0, b1, b2, b3, b4, b5, b6, b7] ++ rest) =
      (8, if beVal [b5, b6, b7] = 0 then none
          else some (.incorrectDataLength (beVal [b5, b6, b7]) 0)) := by
  have h8 : readN 8 ([b0, b1, b2, b3, b4, b5, b6, b7] ++ rest) =
      some ([b0, b1, b2, b3, b4, b5, b6, b7], rest) := readN_exact' 8 _ rest rfl
  simp only [noopReadFrom, h8, List.take_succ_cons, List.take_zero,
    List.drop_succ_cons, List.drop_zero, hcommon]
  rcases eq_or_ne (beVal [b5, b6, b7]) 0 with h | h <;> simp [h]

/-- Witness for C8: a well-formed NOOP header with declared length 1. -/
theorem C8_witness :
    noopReadFrom ([128, 2, 0, 5, 0, 0, 0, 1] ++ []) =
      (8, if beVal [0, 0, 1] = 0 then none
          else some (.incorrectDataLength (beVal [0, 0, 1]) 0)) :=
  C8_noop_length_check 128 2 0 5 0 0 0 1 [] (by decide)

/-- C9: parsing `80 02 00 05 00 00 00 00` with `NoopFrame.ReadFrom`
succeeds with no error and reports exactly 8 bytes consumed (also with
trailing bytes present), yielding the NOOP frame. -/
theorem C9_noop_parse :
    noopReadFrom [128, 2, 0, 5, 0, 0, 0, 0] = (8, none) ∧
    noopReadFrom ([128, 2, 0, 5, 0, 0, 0, 0] ++ [222, 173]) = (8, none) := by decide

/-- C10: for every byte sink, `NoopFrame.WriteTo` returns `(0, nil)`
and writes nothing — the sink is unchanged. -/
theorem C10_noop_write_nothing (sink : Bytes) :
    noopWriteTo sink = (sink, 0, none) := rfl

end Spdy
